import Mathlib

/-!
Shallow embedding of `scripts/build_assets.py` from the EmotiPet repository:
the model-container builder (`pack_models`), the asset-bundle builder
(`pack_assets_simple`, with its helpers `compute_checksum` and `sort_key`)
and the manifest generator (the `multinet_model` construction inside
`build_assets`).  Byte strings are modelled as `List Nat`; Python calls that
can raise (`struct.error`, `AssertionError`, `OverflowError`, `TypeError`)
are modelled as `Option`-valued functions where `none` stands for the raised
exception.
-/

/-- Little-endian byte digits of `n` in `w` bytes: the byte content produced
by `int.to_bytes(w, "little")` and by `struct.pack` integer codes. -/
def leBytes : Nat → Nat → List Nat
  | _, 0 => []
  | n, w + 1 => n % 256 :: leBytes (n / 256) w

/-- `n.to_bytes(w, "little")` / `struct.pack('I', n)`: fails
(`OverflowError` / `struct.error`) when `n` does not fit in `w` bytes. -/
def toBytesLE (n w : Nat) : Option (List Nat) :=
  if n < 256 ^ w then some (leBytes n w) else none

/-- Value denoted by a little-endian byte list (reader side; used to state
what the emitted header fields mean). -/
def decodeLE : List Nat → Nat
  | [] => 0
  | b :: bs => b + 256 * decodeLE bs

/-- Conditions under which `struct_pack_string(s, maxLen)` returns normally:
the `assert len(string) <= max_len` holds, the string is nonempty (on an
empty string the byte accumulator is still `None` when padding starts and
the call crashes), and every character code fits `struct.pack('b', ...)`,
which accepts at most 127. -/
def packableName (s : String) (maxLen : Nat) : Bool :=
  decide (s.length ≤ maxLen) && decide (0 < s.length) &&
    s.data.all (fun c => decide (c.toNat ≤ 127))

/-- `struct_pack_string` (build_assets.py lines 48-68): packs `s` into
exactly `maxLen` bytes, right-padded with null bytes.  `none` models the
failure cases of the Python code (assertion failure on an over-long name,
`struct.error` on a code point above 127, crash on an empty string). -/
def struct_pack_string (s : String) (maxLen : Nat) : Option (List Nat) :=
  if packableName s maxLen then
    some (s.data.map Char.toNat ++ List.replicate (maxLen - s.length) 0)
  else none

/-- One file inside a model directory: its path relative to the model root
and its raw bytes (`read_data`). -/
structure MFile where
  name : String
  content : List Nat
  deriving DecidableEq

/-- One immediate subdirectory of the root passed to `pack_models`: the
model name and the files found by `os.walk`, in enumeration order. -/
structure MModel where
  name : String
  files : List MFile
  deriving DecidableEq

/-- The descriptor values the builder packs for one file — the
`file_name` / `file_start` / `file_len` fields of `model_info_t`. -/
structure FileDesc where
  name : String
  offset : Nat
  length : Nat
  deriving DecidableEq

/-- Total number of files across all models (`file_num`). -/
def totalFileCount (ms : List MModel) : Nat :=
  (ms.map (fun m => m.files.length)).sum

/-- `header_len` as precomputed at line 131:
`4 + model_num * (32 + 4) + file_num * (32 + 4 + 4)`. -/
def headerLen (ms : List MModel) : Nat :=
  4 + ms.length * (32 + 4) + totalFileCount ms * (32 + 4 + 4)

/-- All files of all models, in descriptor order. -/
def allFiles (ms : List MModel) : List MFile :=
  (ms.map (fun m => m.files)).flatten

/-- Sum of the content lengths of a file list. -/
def sumLen (fs : List MFile) : Nat :=
  (fs.map (fun f => f.content.length)).sum

/-- The inner loop of `pack_models` (lines 141-150): one 40-byte descriptor
per file (32-byte name, 4-byte offset, 4-byte length), while the file
content is appended to the data region.  `data` is the data region
accumulated so far (across all models); the packed offset is
`header_len + len(data_bin)` at the moment the file is reached.  Returns
the descriptor bytes, the grown data region and the packed values. -/
def packFiles (hl : Nat) : List MFile → List Nat → Option (List Nat × List Nat × List FileDesc)
  | [], data => some ([], data, [])
  | f :: fs, data => do
    let nameB ← struct_pack_string f.name 32
    let offB ← toBytesLE (hl + data.length) 4
    let lenB ← toBytesLE f.content.length 4
    let r ← packFiles hl fs (data ++ f.content)
    some (nameB ++ offB ++ lenB ++ r.1, r.2.1,
          ⟨f.name, hl + data.length, f.content.length⟩ :: r.2.2)

/-- The outer loop of `pack_models` (lines 137-152): per model a 36-byte
model header (32-byte name plus 4-byte file count) followed by its file
descriptors; the data region threads through all models. -/
def packModelsAux (hl : Nat) : List MModel → List Nat → Option (List Nat × List Nat × List FileDesc)
  | [], data => some ([], data, [])
  | m :: ms, data => do
    let nameB ← struct_pack_string m.name 32
    let cntB ← toBytesLE m.files.length 4
    let r ← packFiles hl m.files data
    let s ← packModelsAux hl ms r.2.1
    some (nameB ++ cntB ++ r.1 ++ s.1, s.2.1, r.2.2 ++ s.2.2)

/-- `pack_models` up to (not including) the line 154 header-length
assertion: the serialized header (`out_bin` when line 154 is reached), the
data region, and the descriptor values the header contains.  `none` when no
model directory was found (line 125) or a `struct` call raised. -/
def packModelsParts (ms : List MModel) : Option (List Nat × List Nat × List FileDesc) :=
  if ms.isEmpty then none
  else do
    let cntB ← toBytesLE ms.length 4
    let r ← packModelsAux (headerLen ms) ms []
    some (cntB ++ r.1, r.2.1, r.2.2)

/-- `pack_models` (lines 77-164): the bytes written to `srmodels.bin`.  The
`if` mirrors the line 154 assertion: a header-length mismatch aborts the
build (`none`), it is never silently corrected. -/
def pack_models (ms : List MModel) : Option (List Nat) :=
  match packModelsParts ms with
  | none => none
  | some r => if r.1.length = headerLen ms then some (r.1 ++ r.2.1) else none

/-- `pack_models` including the line 108 root-existence check: a `none`
input models a missing root directory, `some ms` an existing root whose
immediate subdirectories are `ms` (a subdirectory enters `models` even when
its recursive walk finds no files, line 115). -/
def packModelsRun : Option (List MModel) → Option (List Nat)
  | none => none
  | some ms => pack_models ms

/-- A name fitting a 32-byte name field of the container format. -/
def validName32 (s : String) : Bool := packableName s 32

/-- Input conditions under which no `struct` call inside `pack_models`
raises: every name fits its 32-byte ASCII field, and every packed integer
fits 4 bytes (the single bound on `header_len` plus the total data size
covers the model count, the per-model file counts, all offsets and all
lengths). -/
def validContainer (ms : List MModel) : Bool :=
  ms.all (fun m => validName32 m.name && m.files.all (fun f => validName32 f.name)) &&
    decide (headerLen ms + sumLen (allFiles ms) < 2 ^ 32)

/-- Closed form of the offset/length table `packFiles` emits: the file at
position `i` gets offset `hl + base + (sum of the lengths of the files
before it)`. -/
def layoutFiles (hl : Nat) : Nat → List MFile → List FileDesc
  | _, [] => []
  | base, f :: fs =>
    ⟨f.name, hl + base, f.content.length⟩ :: layoutFiles hl (base + f.content.length) fs

/-- UTF-8 byte expansion of one character, as performed by
`str.encode('utf-8')`. -/
def utf8Bytes (c : Char) : List Nat :=
  let n := c.toNat
  if n < 128 then [n]
  else if n < 2048 then [192 + n / 64, 128 + n % 64]
  else if n < 65536 then [224 + n / 4096, 128 + n / 64 % 64, 128 + n % 64]
  else [240 + n / 262144, 128 + n / 4096 % 64, 128 + n / 64 % 64, 128 + n % 64]

/-- `file_name.ljust(max_name_len, '\0')[:max_name_len]` (line 412): the
fixed-width name as a character string.  Python pads and truncates by
character count, not by byte count. -/
def fixedNameChars (w : Nat) (s : String) : List Char :=
  (s.data ++ List.replicate (w - s.length) '\x00').take w

/-- The bytes `fixed_name.encode('utf-8')` contributes to the index region
(line 413). -/
def fixedNameBytes (w : Nat) (s : String) : List Nat :=
  ((fixedNameChars w s).map utf8Bytes).flatten

/-- `compute_checksum` (lines 363-365): `sum(data) & 0xFFFF`. -/
def compute_checksum (data : List Nat) : Nat :=
  data.sum &&& 65535

/-- Index of the last occurrence of `c` in `l` (`str.rfind`), `none` when
absent. -/
def rfindChar : List Char → Char → Option Nat
  | [], _ => none
  | a :: as, c =>
    match rfindChar as c with
    | some i => some (i + 1)
    | none => if a = c then some 0 else none

/-- `os.path.splitext` restricted to plain file names (no path separator):
split at the last dot, unless every character before that dot is itself a
dot (CPython `genericpath._splitext`).  Recomposing the two parts gives the
original name back. -/
def splitext (p : String) : String × String :=
  match rfindChar p.data '.' with
  | none => (p, "")
  | some d =>
    if (p.data.take d).any (fun c => decide (c ≠ '.')) then
      (⟨p.data.take d⟩, ⟨p.data.drop d⟩)
    else (p, "")

/-- `sort_key` (lines 368-371): `basename, extension = splitext(filename);
return extension, basename`. -/
def sort_key (filename : String) : String × String :=
  ((splitext filename).2, (splitext filename).1)

/-- Python string comparison: code-point lexicographic order on the
character sequences. -/
def lexLtB : List Char → List Char → Bool
  | [], [] => false
  | [], _ :: _ => true
  | _ :: _, [] => false
  | a :: as, b :: bs => decide (a.toNat < b.toNat) || (a == b && lexLtB as bs)

/-- Python `a < b` on strings. -/
def strLtB (a b : String) : Bool :=
  lexLtB a.data b.data

/-- Python `a <= b` on strings. -/
def strLeB (a b : String) : Bool :=
  strLtB a b || a == b

/-- Python tuple comparison `a <= b` on `sort_key` values: lexicographic on
the pair, strings by code points. -/
def keyLeB (a b : String × String) : Bool :=
  strLtB a.1 b.1 || (a.1 == b.1 && strLeB a.2 b.2)

/-- The ordering `sorted(..., key=sort_key)` arranges file names by. -/
def fileLe (f g : String) : Prop :=
  keyLeB (sort_key f) (sort_key g) = true

instance : DecidableRel fileLe := fun _ _ =>
  inferInstanceAs (Decidable (_ = true))

/-- The sorted eligible file list of `pack_assets_simple` (lines 388-390):
regular files except `config.json`, sorted by `sort_key`.  Python's sort is
a stable sort by this key; since the key determines the file name (the two
key parts concatenate back to it), a list has exactly one sorted
permutation, so any sorting algorithm models `sorted` exactly. -/
def sortedFileList (names : List String) : List String :=
  List.insertionSort fileLe (names.filter (fun n => !(n == "config.json")))

/-- One row of `file_info_list` (line 397): name, offset of the file's
2-byte marker inside the data region, file size. -/
structure AEntry where
  name : String
  offset : Nat
  size : Nat
  deriving DecidableEq

/-- The `file_info_list` accumulation (lines 392-403): each entry records
the data-region length before its `0x5A5A` marker and content are
appended, so the next offset grows by `2 + size`. -/
def assetEntries (content : String → List Nat) : List String → Nat → List AEntry
  | [], _ => []
  | n :: ns, acc =>
    ⟨n, acc, (content n).length⟩ :: assetEntries content ns (acc + 2 + (content n).length)

/-- The data region (`merged_data`): per file a `0x5A 0x5A` marker followed
by the raw bytes, concatenated in sorted order. -/
def dataRegion (content : String → List Nat) (files : List String) : List Nat :=
  (files.map (fun n => 90 :: 90 :: content n)).flatten

/-- One index record (lines 409-417): fixed-width name bytes, 4-byte
little-endian size, 4-byte little-endian offset, two 2-byte reserved
fields that are always zero.  `none` models the `OverflowError` of
`int.to_bytes` on an over-large value. -/
def recordBytes (e : AEntry) : Option (List Nat) := do
  let sB ← toBytesLE e.size 4
  let oB ← toBytesLE e.offset 4
  some (fixedNameBytes 32 e.name ++ sB ++ oB ++ leBytes 0 2 ++ leBytes 0 2)

/-- The `mmap_table` loop (lines 408-417). -/
def mmapTable : List AEntry → Option (List Nat)
  | [] => some []
  | e :: es => do
    let r ← recordBytes e
    let rest ← mmapTable es
    some (r ++ rest)

/-- `pack_assets_simple` (lines 374-436) on a directory given as the list
of its regular file names plus a content lookup: the bytes written to
`assets.bin` — a 12-byte header (`total_files`, `checksum`, data length)
followed by index region and data region. -/
def pack_assets_simple (names : List String) (content : String → List Nat) :
    Option (List Nat) := do
  let files := sortedFileList names
  let table ← mmapTable (assetEntries content files 0)
  let combined := table ++ dataRegion content files
  let cntB ← toBytesLE files.length 4
  let cksB ← toBytesLE (compute_checksum combined) 4
  let lenB ← toBytesLE combined.length 4
  some (cntB ++ cksB ++ lenB ++ combined)

/-- `str.lower()` (ASCII range; the model names involved are ASCII). -/
def strLower (s : String) : String :=
  ⟨s.data.map Char.toLower⟩

/-- Substring containment `pat in s` on character lists. -/
def listHas (pat : List Char) : List Char → Bool
  | [] => pat.isEmpty
  | c :: t => pat.isPrefixOf (c :: t) || listHas pat t

/-- Python `pat in s` for strings. -/
def strHas (s pat : String) : Bool :=
  listHas pat.data s.data

/-- Python `s.startswith(pat)`. -/
def strStarts (s pat : String) : Bool :=
  pat.data.isPrefixOf s.data

/-- `detect_model_type` (lines 167-183). -/
def detect_model_type (name : String) : String :=
  let l := strLower name
  if strStarts l "wn" || strHas l "wakenet" then "wakenet"
  else if strStarts l "vadnet" || strHas l "vadn" then "vadnet"
  else if strStarts l "nsnet" || strHas l "nsn" then "nsnet"
  else if strStarts l "mn" || strHas l "multinet" then "multinet"
  else "unknown"

/-- The (type, name) pairs `get_model_paths` yields for model names that
resolve under the ESP-SR tree (lines 229-237): the type is assigned by
`detect_model_type`. -/
def modelListFromNames (names : List String) : List (String × String) :=
  names.map (fun n => (detect_model_type n, n))

/-- JSON-like manifest values.  `flt` carries the float detection threshold
opaquely: its value is only ever passed through, never inspected, so the
embedding is parametric in its type. -/
inductive JVal (τ : Type) where
  | str : String → JVal τ
  | nat : Nat → JVal τ
  | flt : τ → JVal τ
  | arr : List (JVal τ) → JVal τ
  | obj : List (String × JVal τ) → JVal τ

/-- One wake-command entry (lines 504-508 / 517-521). -/
def command_entry {τ : Type} (w : String) : JVal τ :=
  .obj [("command", .str w), ("text", .str w), ("action", .str "wake")]

/-- CPython `str.isspace` for one character: the whitespace set that
Python's `str.strip()` removes — the ASCII controls 9-13 (tab, LF, VT, FF,
CR), the separator controls 28-31, the space 32, NEL 133, NBSP 160, the
Ogham space 5760, the typographic spaces 8192-8202, the line and paragraph
separators 8232-8233, the narrow no-break 8239, medium mathematical 8287
and ideographic 12288 spaces. -/
def pyIsSpace (c : Char) : Bool :=
  let n := c.toNat
  (decide (9 ≤ n) && decide (n ≤ 13)) || (decide (28 ≤ n) && decide (n ≤ 32)) ||
    n == 133 || n == 160 || n == 5760 ||
    (decide (8192 ≤ n) && decide (n ≤ 8202)) || n == 8232 || n == 8233 ||
    n == 8239 || n == 8287 || n == 12288

/-- Python truthiness of `w and w.strip()` (lines 502, 515): a phrase was
supplied and survives stripping, i.e. it contains at least one character
outside Python's whitespace set (an all-whitespace or empty phrase is
falsy, as is an absent one). -/
def truthyWake : Option String → Bool
  | none => false
  | some s => s.data.any (fun c => !(pyIsSpace c))

/-- `get_languages_from_models` (lines 244-263): scan multinet model names
for the `_cn`/`cn_` and `_en`/`en_` markers.  The Python code accumulates a
subset of the two-element set and returns it sorted, which is exactly this
list. -/
def get_languages_from_models (ml : List (String × String)) : List String :=
  (if ml.any (fun p => p.1 == "multinet" && (strHas p.2 "_cn" || strHas p.2 "cn_"))
   then ["cn"] else []) ++
  (if ml.any (fun p => p.1 == "multinet" && (strHas p.2 "_en" || strHas p.2 "en_"))
   then ["en"] else [])

/-- The `languages` value stored in the manifest (line 495): the detected
languages, defaulting to `["cn"]` when none was detected. -/
def multinetLanguages (ml : List (String × String)) : List String :=
  if (get_languages_from_models ml).isEmpty then ["cn"]
  else get_languages_from_models ml

/-- The `commands` object (lines 501-525): per language one `wake` entry,
added only when the language was detected (the test uses the raw detected
list, not the defaulted one) and a non-blank phrase was supplied. -/
def multinetCommands {τ : Type} (ml : List (String × String)) (cnW enW : Option String) :
    List (String × JVal τ) :=
  (if (get_languages_from_models ml).contains "cn" && truthyWake cnW then
    [("cn", JVal.arr [command_entry (cnW.getD "")])]
   else []) ++
  (if (get_languages_from_models ml).contains "en" && truthyWake enW then
    [("en", JVal.arr [command_entry (enW.getD "")])]
   else [])

/-- The `multinet_model` manifest object (lines 487-529): built exactly
when the supplied model list contains a multinet model, with the field
names of the source dict literal (lines 494-499). -/
def build_multinet_info {τ : Type} (ml : List (String × String)) (cnW enW : Option String)
    (threshold : τ) : Option (JVal τ) :=
  if ((ml.filter (fun p => p.1 == "multinet")).map (fun p => p.2)).isEmpty then none
  else
    some (.obj [("languages", .arr ((multinetLanguages ml).map .str)),
                ("duration", .nat 3000),
                ("threshold", .flt threshold),
                ("commands", .obj (multinetCommands ml cnW enW))])

/-- Top-level key list of an optional JSON object. -/
def topKeys {τ : Type} : Option (JVal τ) → List String
  | some (.obj l) => l.map Prod.fst
  | _ => []

/-- The scenario input named by the spec: one model directory `mn6_cn` with
a 4-byte file `a.bin` followed by a 6-byte file `b.bin`. -/
def exModels : List MModel :=
  [⟨"mn6_cn", [⟨"a.bin", [1, 2, 3, 4]⟩, ⟨"b.bin", [9, 8, 7, 6, 5, 4]⟩]⟩]

/-- The asset bundle built from a directory holding one file `a` with
content bytes `[1, 2]`: header `total_files=1`, `checksum=282`,
`payload_length=48`, one 44-byte index record, marker plus content. -/
def exBundleOut : List Nat :=
  [1, 0, 0, 0, 26, 1, 0, 0, 48, 0, 0, 0, 97] ++ List.replicate 31 0 ++
    [2, 0, 0, 0, 0, 0, 0, 0, 0, 0, 0, 0, 90, 90, 1, 2]

-- Basic lemmas about the byte-level helpers.

theorem leBytes_length : ∀ (w n : Nat), (leBytes n w).length = w := by
  intro w
  induction w with
  | zero => intro n; rfl
  | succ w ih => intro n; simp [leBytes, ih]

theorem toBytesLE_eq_of_lt {n w : Nat} (h : n < 256 ^ w) :
    toBytesLE n w = some (leBytes n w) := by
  simp [toBytesLE, h]

theorem toBytesLE_length {n w : Nat} {l : List Nat} (h : toBytesLE n w = some l) :
    l.length = w := by
  unfold toBytesLE at h
  by_cases hn : n < 256 ^ w
  · simp [hn] at h; simp [← h, leBytes_length]
  · simp [hn] at h

theorem decodeLE_leBytes : ∀ (w n : Nat), n < 256 ^ w → decodeLE (leBytes n w) = n := by
  intro w
  induction w with
  | zero => intro n h; simp [pow_zero] at h; simp [h, leBytes, decodeLE]
  | succ w ih =>
    intro n h
    have hdiv : n / 256 < 256 ^ w := by
      have : n < 256 ^ w * 256 := by
        calc n < 256 ^ (w + 1) := h
        _ = 256 ^ w * 256 := by rw [pow_succ]
      exact Nat.div_lt_of_lt_mul (by omega)
    simp [leBytes, decodeLE, ih _ hdiv]
    omega

theorem struct_pack_string_spec {s : String} {w : Nat} (h : packableName s w = true) :
    struct_pack_string s w
      = some (s.data.map Char.toNat ++ List.replicate (w - s.length) 0) := by
  simp [struct_pack_string, h]

theorem struct_pack_string_length {s : String} {w : Nat} (h : packableName s w = true) :
    ∃ b, struct_pack_string s w = some b ∧ b.length = w := by
  refine ⟨_, struct_pack_string_spec h, ?_⟩
  have hle : s.length ≤ w := by
    have := h
    unfold packableName at this
    simp only [Bool.and_eq_true, decide_eq_true_eq] at this
    exact this.1.1
  have hdata : s.data.length = s.length := rfl
  simp [List.length_append, List.length_map, List.length_replicate, hdata]
  omega

theorem layoutFiles_length (hl : Nat) :
    ∀ (fs : List MFile) (base : Nat), (layoutFiles hl base fs).length = fs.length := by
  intro fs
  induction fs with
  | nil => intro base; rfl
  | cons f fs ih => intro base; simp [layoutFiles, ih]

theorem layoutFiles_append (hl : Nat) :
    ∀ (xs ys : List MFile) (base : Nat),
      layoutFiles hl base (xs ++ ys)
        = layoutFiles hl base xs ++ layoutFiles hl (base + sumLen xs) ys := by
  intro xs
  induction xs with
  | nil => intro ys base; simp [layoutFiles, sumLen]
  | cons x xs ih =>
    intro ys base
    simp [layoutFiles, ih, sumLen, List.map_cons, List.sum_cons]
    ring_nf

theorem layoutFiles_map_length (hl : Nat) :
    ∀ (fs : List MFile) (base : Nat),
      (layoutFiles hl base fs).map (fun d => d.length) = fs.map (fun f => f.content.length) := by
  intro fs
  induction fs with
  | nil => intro base; rfl
  | cons f fs ih => intro base; simp [layoutFiles, ih]

theorem toBytesLE4 {n : Nat} (h : n < 2 ^ 32) : toBytesLE n 4 = some (leBytes n 4) :=
  toBytesLE_eq_of_lt (lt_of_lt_of_eq h (by norm_num))

theorem packFiles_spec (hl : Nat) :
    ∀ (fs : List MFile) (data : List Nat),
      (∀ f ∈ fs, validName32 f.name = true) →
      hl + data.length + sumLen fs < 2 ^ 32 →
      ∃ fb, packFiles hl fs data
          = some (fb, data ++ (fs.map (fun f => f.content)).flatten,
                  layoutFiles hl data.length fs) ∧
        fb.length = fs.length * 40 := by
  intro fs
  induction fs with
  | nil =>
    intro data _ _
    exact ⟨[], by simp [packFiles, layoutFiles], rfl⟩
  | cons f fs ih =>
    intro data hnames hsz
    have hf : validName32 f.name = true := hnames f (by simp)
    obtain ⟨nb, hnb, hnbl⟩ := struct_pack_string_length (s := f.name) (w := 32) hf
    have hsum : sumLen (f :: fs) = f.content.length + sumLen fs := by
      simp [sumLen]
    have hoff : hl + data.length < 2 ^ 32 := by omega
    have hlen : f.content.length < 2 ^ 32 := by omega
    have hrec : hl + (data ++ f.content).length + sumLen fs < 2 ^ 32 := by
      simp [List.length_append]; omega
    obtain ⟨fb, hfb, hfbl⟩ := ih (data ++ f.content) (fun g hg => hnames g (by simp [hg])) hrec
    refine ⟨nb ++ leBytes (hl + data.length) 4 ++ leBytes f.content.length 4 ++ fb, ?_, ?_⟩
    · simp only [packFiles, hnb, toBytesLE4 hoff, toBytesLE4 hlen,
        Option.bind_eq_bind, Option.some_bind, hfb]
      simp [layoutFiles, List.length_append]
    · simp [List.length_append, hnbl, hfbl, leBytes_length]
      ring

theorem packModelsAux_spec (hl : Nat) :
    ∀ (ms : List MModel) (data : List Nat),
      (∀ m ∈ ms, validName32 m.name = true ∧ ∀ f ∈ m.files, validName32 f.name = true) →
      hl + data.length + sumLen (allFiles ms) < 2 ^ 32 →
      (∀ m ∈ ms, m.files.length < 2 ^ 32) →
      ∃ hb, packModelsAux hl ms data
          = some (hb, data ++ ((allFiles ms).map (fun f => f.content)).flatten,
                  layoutFiles hl data.length (allFiles ms)) ∧
        hb.length = ms.length * 36 + totalFileCount ms * 40 := by
  intro ms
  induction ms with
  | nil =>
    intro data _ _ _
    exact ⟨[], by simp [packModelsAux, allFiles, layoutFiles], by simp [totalFileCount]⟩
  | cons m ms ih =>
    intro data hnames hsz hcnt
    have hall : allFiles (m :: ms) = m.files ++ allFiles ms := by
      simp [allFiles]
    have hm := hnames m (by simp)
    obtain ⟨nb, hnb, hnbl⟩ := struct_pack_string_length (s := m.name) (w := 32) hm.1
    have hcm : m.files.length < 2 ^ 32 := hcnt m (by simp)
    have hsplit : sumLen (allFiles (m :: ms)) = sumLen m.files + sumLen (allFiles ms) := by
      rw [hall]; simp [sumLen]
    have hfsz : hl + data.length + sumLen m.files < 2 ^ 32 := by omega
    obtain ⟨fb, hfb, hfbl⟩ := packFiles_spec hl m.files data hm.2 hfsz
    have hdlen : (data ++ (m.files.map (fun f => f.content)).flatten).length
        = data.length + sumLen m.files := by
      simp [List.length_append, List.length_flatten, List.map_map, sumLen, Function.comp_def]
    have hrec : hl + (data ++ (m.files.map (fun f => f.content)).flatten).length
        + sumLen (allFiles ms) < 2 ^ 32 := by
      rw [hdlen]; omega
    obtain ⟨hb, hhb, hhbl⟩ := ih (data ++ (m.files.map (fun f => f.content)).flatten)
      (fun x hx => hnames x (by simp [hx])) hrec (fun x hx => hcnt x (by simp [hx]))
    refine ⟨nb ++ leBytes m.files.length 4 ++ fb ++ hb, ?_, ?_⟩
    · simp only [packModelsAux, hnb, toBytesLE4 hcm, Option.bind_eq_bind,
        Option.some_bind, hfb, hhb]
      rw [hall, layoutFiles_append]
      simp [hdlen, List.append_assoc]
    · simp [List.length_append, hnbl, hfbl, hhbl, leBytes_length, totalFileCount]
      ring

theorem validContainer_names {ms : List MModel} (h : validContainer ms = true) :
    ∀ m ∈ ms, validName32 m.name = true ∧ ∀ f ∈ m.files, validName32 f.name = true := by
  unfold validContainer at h
  simp only [Bool.and_eq_true, List.all_eq_true] at h
  intro m hm
  have := h.1 m hm
  simp only [Bool.and_eq_true, List.all_eq_true] at this
  exact ⟨this.1, this.2⟩

theorem validContainer_size {ms : List MModel} (h : validContainer ms = true) :
    headerLen ms + sumLen (allFiles ms) < 2 ^ 32 := by
  unfold validContainer at h
  simp only [Bool.and_eq_true, decide_eq_true_eq] at h
  exact h.2

theorem flatten_content_length (fs : List MFile) :
    ((fs.map (fun f => f.content)).flatten).length = sumLen fs := by
  simp [List.length_flatten, List.map_map, sumLen, Function.comp_def]

theorem packModelsParts_spec {ms : List MModel} (hv : validContainer ms = true)
    (hne : ms.isEmpty = false) :
    ∃ hb,
      packModelsParts ms
        = some (leBytes ms.length 4 ++ hb,
                ((allFiles ms).map (fun f => f.content)).flatten,
                layoutFiles (headerLen ms) 0 (allFiles ms)) ∧
      (leBytes ms.length 4 ++ hb).length = headerLen ms := by
  have hH : headerLen ms = 4 + ms.length * 36 + totalFileCount ms * 40 := by
    simp [headerLen]
  have hsz := validContainer_size hv
  have hmsl : ms.length < 2 ^ 32 := by omega
  have hcnt : ∀ m ∈ ms, m.files.length < 2 ^ 32 := by
    intro m hm
    have hmem : m.files.length ∈ ms.map (fun m => m.files.length) :=
      List.mem_map_of_mem _ hm
    have htf : m.files.length ≤ totalFileCount ms :=
      List.single_le_sum (fun x _ => Nat.zero_le x) _ hmem
    omega
  obtain ⟨hb, hhb, hlen⟩ := packModelsAux_spec (headerLen ms) ms []
    (validContainer_names hv) (by simpa using hsz) hcnt
  refine ⟨hb, ?_, ?_⟩
  · unfold packModelsParts
    rw [hne]
    simp only [Bool.false_eq_true, if_false, toBytesLE4 hmsl, Option.bind_eq_bind,
      Option.some_bind, hhb]
    simp
  · simp only [List.length_append, leBytes_length, hlen]
    omega

theorem layoutFiles_get_offset (hl : Nat) :
    ∀ (fs : List MFile) (base i : Nat) (hi : i < (layoutFiles hl base fs).length),
      ((layoutFiles hl base fs).get ⟨i, hi⟩).offset
        = hl + base + (((layoutFiles hl base fs).take i).map (fun d => d.length)).sum := by
  intro fs
  induction fs with
  | nil => intro base i hi; simp [layoutFiles] at hi
  | cons f fs ih =>
    intro base i hi
    cases i with
    | zero => simp [layoutFiles]
    | succ i =>
      have hi2 : i < (layoutFiles hl (base + f.content.length) fs).length := by
        simpa [layoutFiles] using hi
      have := ih (base + f.content.length) i hi2
      simp only [layoutFiles, List.get_cons_succ, List.take_succ_cons, List.map_cons,
        List.sum_cons] at this ⊢
      omega

theorem layoutFiles_mem_bound (hl : Nat) :
    ∀ (fs : List MFile) (base : Nat) (d : FileDesc), d ∈ layoutFiles hl base fs →
      hl + base ≤ d.offset ∧ d.offset + d.length ≤ hl + base + sumLen fs := by
  intro fs
  induction fs with
  | nil => intro base d hd; simp [layoutFiles] at hd
  | cons f fs ih =>
    intro base d hd
    have hsum : sumLen (f :: fs) = f.content.length + sumLen fs := by simp [sumLen]
    rcases List.mem_cons.mp hd with h | h
    · subst h
      simp only
      omega
    · have := ih (base + f.content.length) d h
      omega

theorem layoutFiles_pairwise (hl : Nat) :
    ∀ (fs : List MFile) (base : Nat),
      List.Pairwise (fun d e => d.offset + d.length ≤ e.offset) (layoutFiles hl base fs) := by
  intro fs
  induction fs with
  | nil => intro base; simp [layoutFiles]
  | cons f fs ih =>
    intro base
    refine List.Pairwise.cons ?_ (ih (base + f.content.length))
    intro e he
    have := (layoutFiles_mem_bound hl fs (base + f.content.length) e he).1
    simp only
    omega

/-- C1: for every successful model-container build, the precomputed header
length equals `4 + model_count*(32+4) + total_file_count*(32+4+4)` bytes,
the serialized header (model count plus all descriptors) is exactly this
many bytes, and the build then passes the fatal line 154 assertion — the
embedded `pack_models` returns the header followed by the data region
instead of aborting with `none`. -/
theorem C1_header_length (ms : List MModel) (hv : validContainer ms = true)
    (hne : ms.isEmpty = false) :
    ∃ hdr data descs, packModelsParts ms = some (hdr, data, descs) ∧
      headerLen ms = 4 + ms.length * (32 + 4) + totalFileCount ms * (32 + 4 + 4) ∧
      hdr.length = headerLen ms ∧
      pack_models ms = some (hdr ++ data) := by
  obtain ⟨hb, hp, hlen⟩ := packModelsParts_spec hv hne
  refine ⟨_, _, _, hp, rfl, hlen, ?_⟩
  unfold pack_models
  rw [hp]
  simp [hlen]

theorem C1_header_length_witness :
    validContainer exModels = true ∧ exModels.isEmpty = false ∧
      (∃ hdr data descs, packModelsParts exModels = some (hdr, data, descs) ∧
        headerLen exModels
          = 4 + exModels.length * (32 + 4) + totalFileCount exModels * (32 + 4 + 4) ∧
        hdr.length = headerLen exModels ∧
        pack_models exModels = some (hdr ++ data)) :=
  ⟨by decide, by decide, C1_header_length exModels (by decide) (by decide)⟩

/-- C2: every stored file offset is absolute from the start of the
container and equals `header_length` plus the sum of the lengths of all
files emitted before it, in descriptor order. -/
theorem C2_offsets (ms : List MModel) (hv : validContainer ms = true)
    (hne : ms.isEmpty = false) :
    ∃ hdr data descs, packModelsParts ms = some (hdr, data, descs) ∧
      ∀ i (hi : i < descs.length),
        (descs.get ⟨i, hi⟩).offset
          = headerLen ms + (((descs.take i).map (fun d => d.length)).sum) := by
  obtain ⟨hb, hp, hlen⟩ := packModelsParts_spec hv hne
  refine ⟨_, _, _, hp, ?_⟩
  intro i hi
  have := layoutFiles_get_offset (headerLen ms) (allFiles ms) 0 i hi
  simpa using this

theorem C2_offsets_witness :
    validContainer exModels = true ∧ exModels.isEmpty = false ∧
      (∃ hdr data descs, packModelsParts exModels = some (hdr, data, descs) ∧
        ∀ i (hi : i < descs.length),
          (descs.get ⟨i, hi⟩).offset
            = headerLen exModels + (((descs.take i).map (fun d => d.length)).sum)) :=
  ⟨by decide, by decide, C2_offsets exModels (by decide) (by decide)⟩

/-- The spec scenario of C2 in concrete numbers: `header_length` is 120,
the first file sits at offset 120 and the second at `120 + 4`. -/
theorem C2_offsets_scenario :
    headerLen exModels = 120 ∧
      packModelsParts exModels
        = some (((packModelsParts exModels).map (fun r => r.1)).getD [],
                ((packModelsParts exModels).map (fun r => r.2.1)).getD [],
                [⟨"a.bin", 120, 4⟩, ⟨"b.bin", 124, 6⟩]) := by
  constructor
  · decide
  · decide

/-- C3: every file region fits inside the emitted container and the regions
of any two distinct descriptors are disjoint. -/
theorem C3_regions (ms : List MModel) (hv : validContainer ms = true)
    (hne : ms.isEmpty = false) :
    ∃ hdr data descs, packModelsParts ms = some (hdr, data, descs) ∧
      (∀ d ∈ descs, d.offset + d.length ≤ (hdr ++ data).length) ∧
      List.Pairwise
        (fun d e => d.offset + d.length ≤ e.offset ∨ e.offset + e.length ≤ d.offset)
        descs := by
  obtain ⟨hb, hp, hlen⟩ := packModelsParts_spec hv hne
  refine ⟨_, _, _, hp, ?_, ?_⟩
  · intro d hd
    have hbound := (layoutFiles_mem_bound (headerLen ms) (allFiles ms) 0 d hd).2
    have hdata := flatten_content_length (allFiles ms)
    simp only [List.length_append, hlen, hdata]
    omega
  · exact (layoutFiles_pairwise (headerLen ms) (allFiles ms) 0).imp (fun h => Or.inl h)

theorem C3_regions_witness :
    validContainer exModels = true ∧ exModels.isEmpty = false ∧
      (∃ hdr data descs, packModelsParts exModels = some (hdr, data, descs) ∧
        (∀ d ∈ descs, d.offset + d.length ≤ (hdr ++ data).length) ∧
        List.Pairwise
          (fun d e => d.offset + d.length ≤ e.offset ∨ e.offset + e.length ≤ d.offset)
          descs) :=
  ⟨by decide, by decide, C3_regions exModels (by decide) (by decide)⟩

-- Name-encoding lemmas shared by C4 and C5.

theorem utf8Bytes_ascii {c : Char} (h : c.toNat ≤ 127) : (utf8Bytes c).length = 1 := by
  unfold utf8Bytes
  rw [if_pos (by omega)]
  rfl

theorem flatten_utf8_length :
    ∀ (l : List Char), (∀ c ∈ l, c.toNat ≤ 127) → ((l.map utf8Bytes).flatten).length = l.length := by
  intro l
  induction l with
  | nil => intro _; rfl
  | cons c l ih =>
    intro h
    simp only [List.map_cons, List.flatten_cons, List.length_append, List.length_cons]
    rw [utf8Bytes_ascii (h c (by simp)), ih (fun d hd => h d (by simp [hd]))]
    omega

theorem fixedNameChars_length (w : Nat) (s : String) : (fixedNameChars w s).length = w := by
  have hd : s.data.length = s.length := rfl
  simp only [fixedNameChars, List.length_take, List.length_append, List.length_replicate]
  omega

theorem fixedNameChars_ascii {s : String} (w : Nat)
    (h : s.data.all (fun c => decide (c.toNat ≤ 127)) = true) :
    ∀ c ∈ fixedNameChars w s, c.toNat ≤ 127 := by
  intro c hc
  have hmem := List.mem_of_mem_take hc
  rcases List.mem_append.mp hmem with h1 | h2
  · have := List.all_eq_true.mp h c h1
    simpa using this
  · have := List.eq_of_mem_replicate h2
    subst this
    decide

theorem fixedNameBytes_ascii_length {s : String} (w : Nat)
    (h : s.data.all (fun c => decide (c.toNat ≤ 127)) = true) :
    (fixedNameBytes w s).length = w := by
  unfold fixedNameBytes
  rw [flatten_utf8_length _ (fixedNameChars_ascii w h), fixedNameChars_length]

/-- C4 (amended): the repository has two fixed-width name encoders with
different contracts.  The model-container encoder `struct_pack_string` is
not total: it succeeds exactly on nonempty names that already fit the
width (for ASCII names, as assumed here) and fails — assertion error, no
truncation — on longer ones.  The asset-bundle encoder is total: it
truncates or null-pads to exactly `w` characters, which is exactly `w`
bytes for ASCII names. -/
theorem C4_encoding (s : String) (w : Nat)
    (h : s.data.all (fun c => decide (c.toNat ≤ 127)) = true) :
    ((struct_pack_string s w).isSome ↔ (0 < s.length ∧ s.length ≤ w)) ∧
      (fixedNameChars w s).length = w ∧
      (fixedNameBytes w s).length = w := by
  refine ⟨?_, fixedNameChars_length w s, fixedNameBytes_ascii_length w h⟩
  unfold struct_pack_string packableName
  rw [h]
  by_cases h1 : s.length ≤ w <;> by_cases h2 : 0 < s.length <;> simp [h1, h2]

theorem C4_encoding_witness :
    ("abc").data.all (fun c => decide (c.toNat ≤ 127)) = true ∧
      (((struct_pack_string "abc" 2).isSome ↔ (0 < "abc".length ∧ "abc".length ≤ 2)) ∧
        (fixedNameChars 2 "abc").length = 2 ∧
        (fixedNameBytes 2 "abc").length = 2) :=
  ⟨by decide, C4_encoding "abc" 2 (by decide)⟩

/-- C4 counterexample: on a 33-character name and width 32 the claim
promises warning-plus-truncation to exactly 32 bytes; `struct_pack_string`
instead hits its `assert len(string) <= max_len` and aborts — the embedded
encoder returns `none`, not a truncated 32-byte string. -/
theorem C4_counterexample :
    struct_pack_string "aaaaaaaaaaaaaaaaaaaaaaaaaaaaaaaaa" 32 = none := by
  decide

-- Index-record lemmas for C5.

theorem recordBytes_length {e : AEntry} {r : List Nat}
    (hn : (fixedNameBytes 32 e.name).length = 32) (h : recordBytes e = some r) :
    r.length = 44 := by
  unfold recordBytes at h
  cases hs : toBytesLE e.size 4 with
  | none => rw [hs] at h; simp at h
  | some sB =>
    cases ho : toBytesLE e.offset 4 with
    | none => rw [hs, ho] at h; simp at h
    | some oB =>
      rw [hs, ho] at h
      simp only [Option.bind_eq_bind, Option.some_bind, Option.some.injEq] at h
      rw [← h]
      simp [List.length_append, hn, toBytesLE_length hs, toBytesLE_length ho,
        leBytes_length]

theorem mmapTable_length :
    ∀ (es : List AEntry) (t : List Nat),
      (∀ e ∈ es, (fixedNameBytes 32 e.name).length = 32) →
      mmapTable es = some t → t.length = 44 * es.length := by
  intro es
  induction es with
  | nil => intro t _ h; simp only [mmapTable, Option.some.injEq] at h; simp [← h]
  | cons e es ih =>
    intro t hn h
    unfold mmapTable at h
    cases hr : recordBytes e with
    | none => rw [hr] at h; simp at h
    | some r =>
      cases hrest : mmapTable es with
      | none => rw [hr, hrest] at h; simp at h
      | some rest =>
        rw [hr, hrest] at h
        simp only [Option.bind_eq_bind, Option.some_bind, Option.some.injEq] at h
        rw [← h]
        have h1 := recordBytes_length (hn e (by simp)) hr
        have h2 := ih rest (fun x hx => hn x (by simp [hx])) hrest
        simp [List.length_append, h1, h2]
        ring

theorem assetEntries_name_mem (content : String → List Nat) :
    ∀ (ns : List String) (acc : Nat) (e : AEntry),
      e ∈ assetEntries content ns acc → e.name ∈ ns := by
  intro ns
  induction ns with
  | nil => intro acc e he; simp [assetEntries] at he
  | cons n ns ih =>
    intro acc e he
    rcases List.mem_cons.mp he with h | h
    · subst h; simp
    · exact List.mem_cons_of_mem _ (ih _ e h)

theorem sortedFileList_subset {names : List String} {n : String}
    (h : n ∈ sortedFileList names) : n ∈ names := by
  unfold sortedFileList at h
  have := (List.perm_insertionSort fileLe _).mem_iff.mp h
  exact (List.mem_filter.mp this).1

theorem assetEntries_length (content : String → List Nat) :
    ∀ (ns : List String) (acc : Nat), (assetEntries content ns acc).length = ns.length := by
  intro ns
  induction ns with
  | nil => intro acc; rfl
  | cons n ns ih => intro acc; simp [assetEntries, ih]

/-- C5 (amended): for every file whose name consists of ASCII characters
(one UTF-8 byte per character) the index record is exactly
`32 + 4 + 4 + 2 + 2 = 44` bytes, so the index region is `44 * total_files`
bytes.  (Names with multi-byte UTF-8 characters are truncated by character
count and produce a longer record, see the counterexample.) -/
theorem C5_record_size (names : List String) (content : String → List Nat) (t : List Nat)
    (hascii : ∀ n ∈ names, n.data.all (fun c => decide (c.toNat ≤ 127)) = true)
    (hsucc : mmapTable (assetEntries content (sortedFileList names) 0) = some t) :
    t.length = 44 * (sortedFileList names).length := by
  have hn : ∀ e ∈ assetEntries content (sortedFileList names) 0,
      (fixedNameBytes 32 e.name).length = 32 := by
    intro e he
    have hmem := assetEntries_name_mem content _ _ e he
    exact fixedNameBytes_ascii_length 32 (hascii e.name (sortedFileList_subset hmem))
  have := mmapTable_length _ t hn hsucc
  rw [this, assetEntries_length]

theorem C5_record_size_witness :
    (∀ n ∈ ["ab"], n.data.all (fun c => decide (c.toNat ≤ 127)) = true) ∧
      mmapTable (assetEntries (fun _ => []) (sortedFileList ["ab"]) 0)
        = some (97 :: 98 :: List.replicate 42 0) ∧
      (97 :: 98 :: List.replicate 42 0).length = 44 * (sortedFileList ["ab"]).length :=
  ⟨by decide, by decide,
    C5_record_size ["ab"] (fun _ => []) _ (by decide) (by decide)⟩

/-- C5 counterexample: the file name `中.bin` (one three-byte UTF-8
character) is padded to 32 characters but encodes to 34 bytes, so its
single index record occupies 46 bytes, not the claimed 44. -/
theorem C5_counterexample :
    (mmapTable (assetEntries (fun _ => List.replicate 4 7) (sortedFileList ["中.bin"]) 0)).map
        (fun t => t.length) = some 46 ∧
      ¬ (46 = 44 * (sortedFileList ["中.bin"]).length) := by
  constructor <;> decide

-- Bundle-header lemmas for C6 and C8.

theorem toBytesLE_inv {n w : Nat} {l : List Nat} (h : toBytesLE n w = some l) :
    n < 256 ^ w ∧ l = leBytes n w := by
  unfold toBytesLE at h
  by_cases hn : n < 256 ^ w
  · simp only [hn, if_true, Option.some.injEq] at h
    exact ⟨hn, h.symm⟩
  · simp [hn] at h

/-- C6: in every successfully built asset bundle the three 4-byte header
fields denote, in order, the number of bundled files, the additive checksum
(byte sum mod 65536) of everything after the header (index region followed
by data region), and the byte length of that same payload. -/
theorem C6_header_fields (names : List String) (content : String → List Nat)
    (out : List Nat) (h : pack_assets_simple names content = some out) :
    ∃ table, mmapTable (assetEntries content (sortedFileList names) 0) = some table ∧
      out.drop 12 = table ++ dataRegion content (sortedFileList names) ∧
      decodeLE (out.take 4) = (sortedFileList names).length ∧
      decodeLE ((out.drop 4).take 4) = (out.drop 12).sum % 65536 ∧
      decodeLE ((out.drop 8).take 4) = (out.drop 12).length := by
  simp only [pack_assets_simple, Option.bind_eq_bind] at h
  cases hm : mmapTable (assetEntries content (sortedFileList names) 0) with
  | none => rw [hm] at h; simp at h
  | some table =>
    rw [hm] at h
    simp only [Option.some_bind] at h
    cases hcnt : toBytesLE (sortedFileList names).length 4 with
    | none => rw [hcnt] at h; simp at h
    | some cntB =>
      rw [hcnt] at h
      simp only [Option.some_bind] at h
      cases hcks : toBytesLE
          (compute_checksum (table ++ dataRegion content (sortedFileList names))) 4 with
      | none => rw [hcks] at h; simp at h
      | some cksB =>
        rw [hcks] at h
        simp only [Option.some_bind] at h
        cases hlen : toBytesLE (table ++ dataRegion content (sortedFileList names)).length 4 with
        | none => rw [hlen] at h; simp at h
        | some lenB =>
          rw [hlen] at h
          simp only [Option.some_bind, Option.some.injEq] at h
          obtain ⟨hc1, hc2⟩ := toBytesLE_inv hcnt
          obtain ⟨hk1, hk2⟩ := toBytesLE_inv hcks
          obtain ⟨hl1, hl2⟩ := toBytesLE_inv hlen
          subst hc2 hk2 hl2
          have e4 : ∀ n : Nat, (leBytes n 4).length = 4 := leBytes_length 4
          have hout : out = leBytes (sortedFileList names).length 4 ++
              (leBytes (compute_checksum (table ++ dataRegion content (sortedFileList names))) 4 ++
                (leBytes (table ++ dataRegion content (sortedFileList names)).length 4 ++
                  (table ++ dataRegion content (sortedFileList names)))) := by
            rw [← h]
            simp [List.append_assoc]
          have hdrop4 : out.drop 4
              = leBytes (compute_checksum (table ++ dataRegion content (sortedFileList names))) 4 ++
                (leBytes (table ++ dataRegion content (sortedFileList names)).length 4 ++
                  (table ++ dataRegion content (sortedFileList names))) := by
            rw [hout]; exact List.drop_left' (e4 _)
          have hdrop8 : out.drop 8
              = leBytes (table ++ dataRegion content (sortedFileList names)).length 4 ++
                (table ++ dataRegion content (sortedFileList names)) := by
            have : out.drop 8 = (out.drop 4).drop 4 := by
              rw [List.drop_drop]
            rw [this, hdrop4]
            exact List.drop_left' (e4 _)
          have hdrop12 : out.drop 12 = table ++ dataRegion content (sortedFileList names) := by
            have : out.drop 12 = (out.drop 8).drop 4 := by
              rw [List.drop_drop]
            rw [this, hdrop8]
            exact List.drop_left' (e4 _)
          refine ⟨table, rfl, hdrop12, ?_, ?_, ?_⟩
          · have htake : out.take 4 = leBytes (sortedFileList names).length 4 := by
              rw [hout]; exact List.take_left' (e4 _)
            rw [htake, decodeLE_leBytes _ _ hc1]
          · have htake : (out.drop 4).take 4
                = leBytes (compute_checksum (table ++ dataRegion content (sortedFileList names))) 4 := by
              rw [hdrop4]; exact List.take_left' (e4 _)
            rw [htake, decodeLE_leBytes _ _ hk1, hdrop12]
            unfold compute_checksum
            have h16 : (65535 : Nat) = 2 ^ 16 - 1 := by norm_num
            have h16b : (65536 : Nat) = 2 ^ 16 := by norm_num
            rw [h16, h16b]
            exact Nat.and_pow_two_sub_one_eq_mod _ 16
          · have htake : (out.drop 8).take 4
                = leBytes (table ++ dataRegion content (sortedFileList names)).length 4 := by
              rw [hdrop8]; exact List.take_left' (e4 _)
            rw [htake, decodeLE_leBytes _ _ hl1, hdrop12]

theorem C6_header_fields_witness :
    pack_assets_simple ["a"] (fun _ => [1, 2]) = some exBundleOut ∧
      (∃ table, mmapTable (assetEntries (fun _ => [1, 2]) (sortedFileList ["a"]) 0)
            = some table ∧
        exBundleOut.drop 12 = table ++ dataRegion (fun _ => [1, 2]) (sortedFileList ["a"]) ∧
        decodeLE (exBundleOut.take 4) = (sortedFileList ["a"]).length ∧
        decodeLE ((exBundleOut.drop 4).take 4) = (exBundleOut.drop 12).sum % 65536 ∧
        decodeLE ((exBundleOut.drop 8).take 4) = (exBundleOut.drop 12).length) :=
  ⟨by decide, C6_header_fields ["a"] (fun _ => [1, 2]) exBundleOut (by decide)⟩

/-- C8: bundling an empty source directory succeeds and emits exactly the
12 zero bytes: `total_files = 0`, `checksum = 0`, `payload_length = 0`. -/
theorem C8_empty_bundle (content : String → List Nat) :
    pack_assets_simple [] content = some (List.replicate 12 0) ∧
      (List.replicate 12 0).length = 12 ∧
      decodeLE ((List.replicate 12 0).take 4) = 0 ∧
      decodeLE (((List.replicate 12 0).drop 4).take 4) = 0 ∧
      decodeLE (((List.replicate 12 0).drop 8).take 4) = 0 := by
  refine ⟨?_, rfl, rfl, rfl, rfl⟩
  simp only [pack_assets_simple, sortedFileList, List.filter_nil, List.insertionSort,
    assetEntries, mmapTable, dataRegion, List.map_nil, List.flatten_nil, compute_checksum]
  rfl

/-- C9 (amended): the model-container builder fails exactly when the root
directory is missing or contains no subdirectory at all.  A subdirectory
with no files still counts as a model (the code registers every
subdirectory before walking it), so a root whose subdirectories are all
empty builds successfully; on success the function writes the container
and returns True. -/
theorem C9_failure_iff (root : Option (List MModel))
    (hv : root.elim true validContainer = true) :
    packModelsRun root = none ↔ root = none ∨ root = some [] := by
  cases root with
  | none => simp [packModelsRun]
  | some ms =>
    cases ms with
    | nil =>
      constructor
      · intro _; right; rfl
      · intro _; decide
    | cons m rest =>
      simp only [packModelsRun, Option.elim] at hv ⊢
      have hne2 : (m :: rest).isEmpty = false := rfl
      obtain ⟨hb, hp, hlen⟩ := packModelsParts_spec hv hne2
      have hpm : pack_models (m :: rest)
          = some ((leBytes (m :: rest).length 4 ++ hb) ++
              (List.map (fun f => f.content) (allFiles (m :: rest))).flatten) := by
        unfold pack_models
        rw [hp]
        simp only [List.length_append, leBytes_length] at hlen
        simp [leBytes_length, hlen]
      constructor
      · intro h
        rw [hpm] at h
        exact Option.noConfusion h
      · rintro (h | h)
        · exact Option.noConfusion h
        · exact List.noConfusion (Option.some.inj h)

theorem C9_failure_iff_witness :
    ((some [(⟨"wn9_abc", [⟨"model.bin", [1, 2]⟩]⟩ : MModel)]).elim true validContainer
        = true) ∧
      (packModelsRun (some [(⟨"wn9_abc", [⟨"model.bin", [1, 2]⟩]⟩ : MModel)]) = none ↔
        (some [(⟨"wn9_abc", [⟨"model.bin", [1, 2]⟩]⟩ : MModel)]
            = (none : Option (List MModel)) ∨
          some [(⟨"wn9_abc", [⟨"model.bin", [1, 2]⟩]⟩ : MModel)] = some [])) :=
  ⟨by decide, C9_failure_iff _ (by decide)⟩

/-- C9 counterexample: a root with one subdirectory that contains no files
has "no subdirectories with files", yet the build succeeds (a 40-byte
container with one zero-file model is written) instead of failing with a
NoModelsFound-style error. -/
theorem C9_counterexample :
    ([(⟨"m", []⟩ : MModel)].all (fun m => m.files.isEmpty) = true) ∧
      (packModelsRun (some [(⟨"m", []⟩ : MModel)])).isSome = true := by
  constructor
  · decide
  · decide

-- Order-theoretic lemmas for the file-sorting claim.

theorem char_toNat_inj {a b : Char} (h : a.toNat = b.toNat) : a = b :=
  Char.ext (UInt32.ext (by simpa [Char.toNat] using h))

theorem lexLtB_irrefl : ∀ l : List Char, lexLtB l l = false := by
  intro l
  induction l with
  | nil => rfl
  | cons a as ih => simp [lexLtB, ih]

theorem lexLtB_trans :
    ∀ a b c : List Char, lexLtB a b = true → lexLtB b c = true → lexLtB a c = true := by
  intro a
  induction a with
  | nil =>
    intro b c hab hbc
    cases b with
    | nil => simp [lexLtB] at hab
    | cons y ys =>
      cases c with
      | nil => simp [lexLtB] at hbc
      | cons z zs => simp [lexLtB]
  | cons x xs ih =>
    intro b c hab hbc
    cases b with
    | nil => simp [lexLtB] at hab
    | cons y ys =>
      cases c with
      | nil => simp [lexLtB] at hbc
      | cons z zs =>
        simp only [lexLtB, Bool.or_eq_true, Bool.and_eq_true, decide_eq_true_eq,
          beq_iff_eq] at hab hbc ⊢
        rcases hab with h1 | ⟨he, h2⟩
        · rcases hbc with g1 | ⟨ge, g2⟩
          · left; omega
          · subst ge; left; exact h1
        · subst he
          rcases hbc with g1 | ⟨ge, g2⟩
          · left; exact g1
          · subst ge; exact Or.inr ⟨rfl, ih ys zs h2 g2⟩

theorem lexLtB_asymm :
    ∀ a b : List Char, lexLtB a b = true → lexLtB b a = true → False := by
  intro a
  induction a with
  | nil =>
    intro b h1 h2
    cases b with
    | nil => simp [lexLtB] at h1
    | cons y ys => simp [lexLtB] at h2
  | cons x xs ih =>
    intro b h1 h2
    cases b with
    | nil => simp [lexLtB] at h1
    | cons y ys =>
      simp only [lexLtB, Bool.or_eq_true, Bool.and_eq_true, decide_eq_true_eq,
        beq_iff_eq] at h1 h2
      rcases h1 with g1 | ⟨ge, g2⟩ <;> rcases h2 with k1 | ⟨ke, k2⟩
      · omega
      · subst ke; omega
      · subst ge; omega
      · subst ge; exact ih ys g2 k2

theorem lexLtB_connex :
    ∀ a b : List Char, lexLtB a b = false → lexLtB b a = false → a = b := by
  intro a
  induction a with
  | nil =>
    intro b h1 h2
    cases b with
    | nil => rfl
    | cons y ys => simp [lexLtB] at h1
  | cons x xs ih =>
    intro b h1 h2
    cases b with
    | nil => simp [lexLtB] at h2
    | cons y ys =>
      simp only [lexLtB, Bool.or_eq_false_iff, Bool.and_eq_false_iff,
        decide_eq_false_iff_not, beq_eq_false_iff_ne, ne_eq] at h1 h2
      have hxy : x = y := char_toNat_inj (by omega)
      subst hxy
      have hxs : lexLtB xs ys = false := by
        rcases h1.2 with h | h
        · exact absurd rfl h
        · exact h
      have hys : lexLtB ys xs = false := by
        rcases h2.2 with h | h
        · exact absurd rfl h
        · exact h
      rw [ih ys hxs hys]

theorem keyLeB_iff (a b : String × String) :
    keyLeB a b = true ↔
      (lexLtB a.1.data b.1.data = true ∨
        (a.1 = b.1 ∧ (lexLtB a.2.data b.2.data = true ∨ a.2 = b.2))) := by
  simp [keyLeB, strLtB, strLeB, Bool.or_eq_true, Bool.and_eq_true, beq_iff_eq]

theorem keyLeB_trans {a b c : String × String} (h1 : keyLeB a b = true)
    (h2 : keyLeB b c = true) : keyLeB a c = true := by
  rw [keyLeB_iff] at h1 h2 ⊢
  rcases h1 with h1 | ⟨e1, h1⟩
  · rcases h2 with h2 | ⟨e2, h2⟩
    · exact Or.inl (lexLtB_trans _ _ _ h1 h2)
    · exact Or.inl (e2 ▸ h1)
  · rcases h2 with h2 | ⟨e2, h2⟩
    · left; rw [e1]; exact h2
    · right
      refine ⟨e1.trans e2, ?_⟩
      rcases h1 with h1 | h1 <;> rcases h2 with h2 | h2
      · exact Or.inl (lexLtB_trans _ _ _ h1 h2)
      · exact Or.inl (h2 ▸ h1)
      · left; rw [h1]; exact h2
      · exact Or.inr (h1.trans h2)

theorem keyLeB_total (a b : String × String) :
    keyLeB a b = true ∨ keyLeB b a = true := by
  rw [keyLeB_iff, keyLeB_iff]
  cases hf : lexLtB a.1.data b.1.data
  · cases hg : lexLtB b.1.data a.1.data
    · have e : a.1 = b.1 := String.ext (lexLtB_connex _ _ hf hg)
      cases hs : lexLtB a.2.data b.2.data
      · cases ht : lexLtB b.2.data a.2.data
        · have e2 : a.2 = b.2 := String.ext (lexLtB_connex _ _ hs ht)
          left; right; exact ⟨e, Or.inr e2⟩
        · right; right; exact ⟨e.symm, Or.inl rfl⟩
      · left; right; exact ⟨e, Or.inl rfl⟩
    · right; left; rfl
  · left; left; rfl

theorem keyLeB_antisymm {a b : String × String} (h1 : keyLeB a b = true)
    (h2 : keyLeB b a = true) : a = b := by
  rw [keyLeB_iff] at h1 h2
  rcases h1 with h1 | ⟨e1, h1⟩
  · rcases h2 with h2 | ⟨e2, h2⟩
    · exact (lexLtB_asymm _ _ h1 h2).elim
    · rw [e2] at h1
      rw [lexLtB_irrefl] at h1
      exact Bool.noConfusion h1
  · rcases h2 with h2 | ⟨e2, h2⟩
    · rw [e1] at h2
      rw [lexLtB_irrefl] at h2
      exact Bool.noConfusion h2
    · rcases h1 with h1 | h1
      · rcases h2 with h2 | h2
        · exact (lexLtB_asymm _ _ h1 h2).elim
        · rw [h2] at h1
          rw [lexLtB_irrefl] at h1
          exact Bool.noConfusion h1
      · exact Prod.ext e1 h1

theorem splitext_recompose (p : String) : (splitext p).1 ++ (splitext p).2 = p := by
  cases h : rfindChar p.data '.' with
  | none => simp [splitext, h]
  | some d =>
    by_cases hc : (p.data.take d).any (fun c => decide (c ≠ '.')) = true
    · have heq : splitext p = (⟨p.data.take d⟩, ⟨p.data.drop d⟩) := by
        unfold splitext
        rw [h]
        exact if_pos hc
      rw [heq]
      apply String.ext
      rw [String.data_append]
      exact List.take_append_drop d p.data
    · have heq : splitext p = (p, "") := by
        unfold splitext
        rw [h]
        exact if_neg hc
      rw [heq]
      simp

theorem sort_key_inj {a b : String} (h : sort_key a = sort_key b) : a = b := by
  have ha := splitext_recompose a
  have hb := splitext_recompose b
  unfold sort_key at h
  have h1 : (splitext a).2 = (splitext b).2 := congrArg Prod.fst h
  have h2 : (splitext a).1 = (splitext b).1 := congrArg Prod.snd h
  rw [← ha, ← hb, h1, h2]

theorem fileLe_trans : ∀ a b c : String, fileLe a b → fileLe b c → fileLe a c :=
  fun _ _ _ h1 h2 => keyLeB_trans h1 h2

theorem fileLe_total : ∀ a b : String, fileLe a b ∨ fileLe b a :=
  fun _ _ => keyLeB_total _ _

theorem fileLe_antisymm : ∀ a b : String, fileLe a b → fileLe b a → a = b :=
  fun _ _ h1 h2 => sort_key_inj (keyLeB_antisymm h1 h2)

/-- C7: the asset bundle lists files in ascending `(extension, base_name)`
order, and the resulting order is a function of the input file set alone:
any two directory listings that are permutations of each other produce the
identical sorted file list (hence identical index bytes). -/
theorem C7_sorted_deterministic (l1 l2 : List String) (hp : l1.Perm l2) :
    sortedFileList l1 = sortedFileList l2 ∧
      (sortedFileList l1).Sorted fileLe := by
  haveI : IsTotal String fileLe := ⟨fileLe_total⟩
  haveI : IsTrans String fileLe := ⟨fileLe_trans⟩
  haveI : IsAntisymm String fileLe := ⟨fileLe_antisymm⟩
  have hs1 : (sortedFileList l1).Sorted fileLe := List.sorted_insertionSort fileLe _
  have hs2 : (sortedFileList l2).Sorted fileLe := List.sorted_insertionSort fileLe _
  refine ⟨?_, hs1⟩
  have hperm : (sortedFileList l1).Perm (sortedFileList l2) := by
    have p1 := List.perm_insertionSort fileLe (l1.filter (fun n => !(n == "config.json")))
    have p2 := List.perm_insertionSort fileLe (l2.filter (fun n => !(n == "config.json")))
    have pf := hp.filter (fun n => !(n == "config.json"))
    exact (p1.trans pf).trans p2.symm
  exact List.eq_of_perm_of_sorted hperm hs1 hs2

theorem C7_sorted_deterministic_witness :
    (["b.txt", "a.bin"].Perm ["a.bin", "b.txt"]) ∧
      (sortedFileList ["b.txt", "a.bin"] = sortedFileList ["a.bin", "b.txt"] ∧
        (sortedFileList ["b.txt", "a.bin"]).Sorted fileLe) :=
  ⟨by decide, C7_sorted_deterministic _ _ (by decide)⟩

/-- C10 (amended): the manifest `multinet_model` object — whose fields are
`languages`, `duration` (milliseconds), `threshold` and `commands` in the
source dict — is present exactly when at least one multinet model was
supplied (in particular it is absent when none was); every key of
`commands` is a detected language whose wake phrase was supplied
non-blank; and when the supplied multinet names carry both the `_cn` and
`_en` markers, `languages = ["cn", "en"]`. -/
theorem C10_manifest (τ : Type) (ml : List (String × String)) (cnW enW : Option String)
    (th : τ) :
    (build_multinet_info ml cnW enW th).isSome = ml.any (fun p => p.1 == "multinet") ∧
      (multinetCommands (τ := τ) ml cnW enW).all
        (fun p =>
          (p.1 == "cn" && (get_languages_from_models ml).contains "cn" && truthyWake cnW)
            || (p.1 == "en" && (get_languages_from_models ml).contains "en"
                && truthyWake enW)) = true ∧
      (ml.any (fun p => p.1 == "multinet" && strHas p.2 "_cn") = true →
        ml.any (fun p => p.1 == "multinet" && strHas p.2 "_en") = true →
        multinetLanguages ml = ["cn", "en"]) := by
  refine ⟨?_, ?_, ?_⟩
  · by_cases hany : ml.any (fun p => p.1 == "multinet") = true
    · rw [hany]
      obtain ⟨x, hx, hpx⟩ := List.any_eq_true.mp hany
      have hxf : x ∈ ml.filter (fun p => p.1 == "multinet") :=
        List.mem_filter.mpr ⟨hx, hpx⟩
      have hxm : x.2 ∈ (ml.filter (fun p => p.1 == "multinet")).map (fun p => p.2) :=
        List.mem_map_of_mem _ hxf
      have hie : ((ml.filter (fun p => p.1 == "multinet")).map (fun p => p.2)).isEmpty
          = false :=
        List.isEmpty_eq_false.mpr (List.ne_nil_of_mem hxm)
      simp [build_multinet_info, hie]
    · have hany2 : ml.any (fun p => p.1 == "multinet") = false := by
        cases hh : ml.any (fun p => p.1 == "multinet")
        · rfl
        · exact absurd hh hany
      rw [hany2]
      have hf : ml.filter (fun p => p.1 == "multinet") = [] :=
        List.filter_eq_nil_iff.mpr
          (fun a ha hpa => hany (List.any_eq_true.mpr ⟨a, ha, hpa⟩))
      simp [build_multinet_info, hf]
  · unfold multinetCommands
    rw [List.all_append, Bool.and_eq_true]
    constructor
    · cases hc : ((get_languages_from_models ml).contains "cn" && truthyWake cnW)
      · simp
      · rw [Bool.and_eq_true] at hc
        have hmem : "cn" ∈ get_languages_from_models ml := by simpa using hc.1
        simp [hc.2, hmem]
    · cases hc : ((get_languages_from_models ml).contains "en" && truthyWake enW)
      · simp
      · rw [Bool.and_eq_true] at hc
        have hmem : "en" ∈ get_languages_from_models ml := by simpa using hc.1
        simp [hc.2, hmem]
  · intro h1 h2
    have hcn : ml.any (fun p => p.1 == "multinet" && (strHas p.2 "_cn" || strHas p.2 "cn_"))
        = true := by
      obtain ⟨x, hx, hpx⟩ := List.any_eq_true.mp h1
      rw [Bool.and_eq_true] at hpx
      refine List.any_eq_true.mpr ⟨x, hx, ?_⟩
      rw [Bool.and_eq_true]
      exact ⟨hpx.1, by simp [hpx.2]⟩
    have hen : ml.any (fun p => p.1 == "multinet" && (strHas p.2 "_en" || strHas p.2 "en_"))
        = true := by
      obtain ⟨x, hx, hpx⟩ := List.any_eq_true.mp h2
      rw [Bool.and_eq_true] at hpx
      refine List.any_eq_true.mpr ⟨x, hx, ?_⟩
      rw [Bool.and_eq_true]
      exact ⟨hpx.1, by simp [hpx.2]⟩
    have hlang : get_languages_from_models ml = ["cn", "en"] := by
      simp [get_languages_from_models, hcn, hen]
    simp [multinetLanguages, hlang]

theorem C10_manifest_witness :
    ((build_multinet_info (modelListFromNames ["mn6_cn", "mn6_en"]) (some "ni hao")
          none ()).isSome
        = (modelListFromNames ["mn6_cn", "mn6_en"]).any (fun p => p.1 == "multinet") ∧
      (multinetCommands (τ := Unit) (modelListFromNames ["mn6_cn", "mn6_en"])
          (some "ni hao") none).all
        (fun p =>
          (p.1 == "cn"
              && (get_languages_from_models
                  (modelListFromNames ["mn6_cn", "mn6_en"])).contains "cn"
              && truthyWake (some "ni hao"))
            || (p.1 == "en"
              && (get_languages_from_models
                  (modelListFromNames ["mn6_cn", "mn6_en"])).contains "en"
              && truthyWake none)) = true ∧
      ((modelListFromNames ["mn6_cn", "mn6_en"]).any
          (fun p => p.1 == "multinet" && strHas p.2 "_cn") = true →
        (modelListFromNames ["mn6_cn", "mn6_en"]).any
          (fun p => p.1 == "multinet" && strHas p.2 "_en") = true →
        multinetLanguages (modelListFromNames ["mn6_cn", "mn6_en"]) = ["cn", "en"])) ∧
      multinetLanguages (modelListFromNames ["mn6_cn", "mn6_en"]) = ["cn", "en"] ∧
      (build_multinet_info (τ := Unit) (modelListFromNames ["vadnet1_medium", "nsnet1"])
          none none ()).isSome = false :=
  ⟨C10_manifest Unit (modelListFromNames ["mn6_cn", "mn6_en"]) (some "ni hao") none (),
    by decide, by decide⟩

/-- C10 counterexample: the built `multinet_model` object stores the
default duration under the key `duration`, not `duration_ms`: its key list
is `languages, duration, threshold, commands` and contains no
`duration_ms`. -/
theorem C10_counterexample :
    topKeys (build_multinet_info (τ := Unit) (modelListFromNames ["mn6_cn"]) none none ())
        = ["languages", "duration", "threshold", "commands"] ∧
      ¬ ("duration_ms" ∈ topKeys (build_multinet_info (τ := Unit)
          (modelListFromNames ["mn6_cn"]) none none ())) := by
  constructor
  · decide
  · decide
